import Mathlib

/-!
Verification of the offline-first data-sync layer of the `love-memories`
repository (`src/leancloud-proxy.js`, class `LoveSiteDataSync`, plus the
`SimpleDataSync` variant in `src/unnamed/part_000`).

The JavaScript code is shallowly embedded: records are structures whose
`id`/`createdAt` fields are `Option`-valued (modelling absent/undefined JS
fields), JS `Map`s are association lists with `Map.set` insert-or-replace
semantics, timestamps are integers (milliseconds since the epoch, the value
`new Date(x)` coerces to), and `Math.random`-driven choices are supplied by
an oracle.  Remote I/O and listener callbacks are likewise supplied by
oracles, and the asynchronous queue drain is modelled as a separate
transition, matching the event-loop semantics in which its effects land
after the synchronous caller returns.
-/

namespace LoveMemories

/-- One record of a collection.  `id`/`createdAt`/`updatedAt` are `none` when
the corresponding JS field is absent; `isLocal` is the local-unsynced flag
of `leancloud-proxy.js`; `isDeleted`/`isModified`/`isNew` are the extra
flags used by the `SimpleDataSync` variant; `payload` stands for the
remaining domain fields of the record. -/
structure Record where
  id : Option String := none
  createdAt : Option Int := none
  updatedAt : Option Int := none
  isLocal : Bool := false
  isDeleted : Bool := false
  isModified : Bool := false
  isNew : Bool := false
  payload : Nat := 0
deriving DecidableEq, Repr

/-- JS truthiness of a string-valued field: `undefined`/`null` (here `none`)
and the empty string are falsy. -/
def truthyId : Option String → Bool
  | none => false
  | some s => s != ""

/-- The key a record contributes to the merge maps (`item.id`, used only
when truthy). -/
def recKey (rec : Record) : Option String :=
  if truthyId rec.id then rec.id else none

/-- The (truthy) identities present in a list of records. -/
def keysOf (items : List Record) : List String :=
  items.filterMap recKey

/-- The fixed collection names of `LoveSiteDataSync` (`this.dataTypes`). -/
def dataTypes : List String := ["Photo", "Diary", "Message", "Anniversary", "Setting"]

/-! ### JS `Map` as an association list

`Map.set` replaces the value of an existing key in place (keeping its
position in iteration order) and otherwise appends; iteration order is key
insertion order, which the association list records directly. -/

/-- `Map.set`. -/
def mapSet (k : String) (v : Record) : List (String × Record) → List (String × Record)
  | [] => [(k, v)]
  | e :: rest => if e.1 = k then (k, v) :: rest else e :: mapSet k v rest

/-- `Map.has`. -/
def mapHas (k : String) (m : List (String × Record)) : Bool :=
  m.any (fun e => e.1 == k)

/-! ### `LoveSiteDataSync.mergeData` (leancloud-proxy.js, lines 419-470) -/

/-- The `local.forEach(...)`/`remote.forEach(...)` loops: build an id→record
map, skipping records whose `id` is falsy. -/
def buildMap (items : List Record) : List (String × Record) :=
  items.foldl (fun m item => if truthyId item.id then mapSet (item.id.getD "") item m else m) []

/-- The merged map: all remote entries first (`remoteMap.forEach`), then the
local entries whose key the remote map lacks (`localMap.forEach` guarded by
`!remoteMap.has(key)`). -/
def mergeMaps (localList remoteList : List Record) : List (String × Record) :=
  (buildMap localList).foldl
    (fun m e => if mapHas e.1 (buildMap remoteList) then m else mapSet e.1 e.2 m)
    ((buildMap remoteList).foldl (fun m e => mapSet e.1 e.2 m) [])

/-- `Array.from(mergedMap.values())`. -/
def mergeUnion (localList remoteList : List Record) : List Record :=
  (mergeMaps localList remoteList).map Prod.snd

/-- The sort key: `a.createdAt ? new Date(a.createdAt) : new Date(0)`,
coerced to its numeric time value. -/
def sortKey (rec : Record) : Int :=
  rec.createdAt.getD 0

/-- The ordering the comparator `(a, b) => dateB - dateA` induces: `a` may
come before `b` exactly when the comparator is `≤ 0`. -/
def sortRel (a b : Record) : Prop :=
  sortKey b ≤ sortKey a

instance : DecidableRel sortRel := fun a b => Int.decLe _ _

instance : IsTotal Record sortRel := ⟨fun a b => (le_total (sortKey b) (sortKey a)).imp id id⟩

instance : IsTrans Record sortRel := ⟨fun _ _ _ h1 h2 => le_trans h2 h1⟩

/-- `mergedArray.sort((a, b) => dateB - dateA)`: JS `Array.prototype.sort`
is stable and orders by the comparator, so it returns the unique stable
descending-by-`sortKey` permutation, which insertion sort along `sortRel`
computes. -/
def sortDesc (items : List Record) : List Record :=
  items.insertionSort sortRel

/-- `LoveSiteDataSync.mergeData(type, local, remote)`.  `none` models a
missing (`null`/`undefined`) argument; `type` is only used for logging in
the source and is ignored. -/
def mergeData (type : String) (localList remoteList : Option (List Record)) : List Record :=
  match localList with
  | none => remoteList.getD []
  | some l =>
    if l.isEmpty then remoteList.getD []
    else
      match remoteList with
      | none => l
      | some r =>
        if r.isEmpty then l
        else sortDesc (mergeUnion l r)

/-! ### Association-list lemmas -/

/-- The pair a record would contribute to a merge map. -/
def entryOf (rec : Record) : Option (String × Record) :=
  if truthyId rec.id then some (rec.id.getD "", rec) else none

theorem mapHas_iff_mem_keys {k : String} {m : List (String × Record)} :
    mapHas k m = true ↔ k ∈ m.map Prod.fst := by
  simp only [mapHas, List.any_eq_true, beq_iff_eq, List.mem_map]

theorem mapHas_append {k : String} {m₁ m₂ : List (String × Record)} :
    mapHas k (m₁ ++ m₂) = (mapHas k m₁ || mapHas k m₂) := by
  simp [mapHas, List.any_append]

theorem mapSet_of_not_has {k : String} {v : Record} {m : List (String × Record)}
    (h : mapHas k m = false) : mapSet k v m = m ++ [(k, v)] := by
  induction m with
  | nil => rfl
  | cons e rest ih =>
    simp only [mapHas, List.any_cons, Bool.or_eq_false_iff, beq_eq_false_iff_ne] at h
    simp only [mapSet, if_neg h.1, List.cons_append]
    exact congrArg (e :: ·) (ih (by simpa [mapHas] using h.2))

theorem buildMap_append (xs : List Record) (x : Record) :
    buildMap (xs ++ [x]) =
      if truthyId x.id then mapSet (x.id.getD "") x (buildMap xs) else buildMap xs := by
  simp [buildMap, List.foldl_append]

theorem keysOf_append (xs ys : List Record) : keysOf (xs ++ ys) = keysOf xs ++ keysOf ys := by
  simp [keysOf]

theorem recKey_eq_some {rec : Record} {k : String} :
    recKey rec = some k ↔ rec.id = some k ∧ k ≠ "" := by
  cases h : rec.id with
  | none => simp [recKey, truthyId, h]
  | some s =>
    by_cases hs : s = ""
    · subst hs
      simp only [recKey, truthyId, h, bne_self_eq_false, Bool.false_eq_true, if_false]
      constructor
      · intro hh; cases hh
      · rintro ⟨h1, h2⟩
        exact absurd (Option.some.inj h1).symm h2
    · have ht : truthyId (some s) = true := by simp [truthyId, hs]
      simp only [recKey, h, ht, if_true]
      constructor
      · intro hh
        exact ⟨hh, fun hk => hs (by simpa [hk] using Option.some.inj hh)⟩
      · exact fun hh => hh.1

theorem mapHas_mapSet {k k' : String} {v : Record} {m : List (String × Record)} :
    mapHas k' (mapSet k v m) = ((k' == k) || mapHas k' m) := by
  induction m with
  | nil =>
    by_cases hk : k = k'
    · subst hk; simp [mapSet, mapHas]
    · simp [mapSet, mapHas, hk, Ne.symm hk]
  | cons e rest ih =>
    by_cases he : e.1 = k
    · by_cases hk : k = k'
      · subst hk; simp [mapSet, he, mapHas, List.any_cons]
      · simp [mapSet, he, mapHas, List.any_cons, hk, Ne.symm hk]
    · simp only [mapSet, if_neg he, mapHas, List.any_cons] at ih ⊢
      rw [ih]
      cases h : (k' == k) <;> cases h2 : (e.1 == k') <;> simp

theorem recKey_of_truthy {x : Record} (hx : truthyId x.id = true) :
    recKey x = some (x.id.getD "") := by
  cases hid : x.id with
  | none => rw [hid] at hx; simp [truthyId] at hx
  | some s =>
    rw [hid] at hx
    have hs : s ≠ "" := by simpa [truthyId] using hx
    simp [recKey, truthyId, hid, hs]

theorem keysOf_singleton (x : Record) :
    keysOf [x] = if truthyId x.id then [x.id.getD ""] else [] := by
  by_cases hx : truthyId x.id = true
  · simp [keysOf, recKey_of_truthy hx, hx]
  · simp only [Bool.not_eq_true] at hx
    simp [keysOf, recKey, hx]

theorem mapHas_buildMap {k : String} {xs : List Record} :
    mapHas k (buildMap xs) = true ↔ k ∈ keysOf xs := by
  induction xs using List.reverseRecOn with
  | nil => simp [buildMap, mapHas, keysOf]
  | append_singleton xs x ih =>
    rw [buildMap_append, keysOf_append, keysOf_singleton]
    by_cases hx : truthyId x.id = true
    · simp only [if_pos hx, mapHas_mapSet, Bool.or_eq_true, beq_iff_eq, ih, List.mem_append,
        List.mem_singleton]
      tauto
    · simp only [Bool.not_eq_true] at hx
      simp [hx, ih]

theorem entryOf_eq_some {rec v : Record} {k : String} :
    entryOf rec = some (k, v) ↔ rec.id = some k ∧ k ≠ "" ∧ v = rec := by
  by_cases hx : truthyId rec.id = true
  · have hkey := recKey_of_truthy hx
    rw [recKey_eq_some] at hkey
    simp only [entryOf, hx, if_true, Option.some.injEq, Prod.mk.injEq]
    constructor
    · rintro ⟨h1, h2⟩
      exact ⟨h1 ▸ hkey.1, h1 ▸ hkey.2, h2.symm⟩
    · rintro ⟨h1, _, h3⟩
      have hk : rec.id.getD "" = k := by rw [h1]; rfl
      exact ⟨hk, h3.symm⟩
  · have hx' : truthyId rec.id = false := by
      cases hb : truthyId rec.id
      · rfl
      · exact absurd hb hx
    simp only [entryOf, hx', Bool.false_eq_true, if_false]
    constructor
    · intro hh; cases hh
    · rintro ⟨h1, h2, _⟩
      exact absurd (by simp [truthyId, h1, h2] : truthyId rec.id = true) hx

theorem keys_filterMap_entryOf (xs : List Record) :
    (xs.filterMap entryOf).map Prod.fst = keysOf xs := by
  rw [keysOf, List.map_filterMap]
  congr 1
  funext rec
  by_cases hx : truthyId rec.id = true
  · simp [entryOf, hx, recKey_of_truthy hx]
  · simp [entryOf, recKey, hx]

theorem mem_filterMap_entryOf {xs : List Record} {k : String} {rec : Record} :
    (k, rec) ∈ xs.filterMap entryOf ↔ rec ∈ xs ∧ rec.id = some k ∧ k ≠ "" := by
  rw [List.mem_filterMap]
  constructor
  · rintro ⟨a, ha, hae⟩
    obtain ⟨h1, h2, h3⟩ := entryOf_eq_some.mp hae
    subst h3
    exact ⟨ha, h1, h2⟩
  · rintro ⟨h1, h2, h3⟩
    exact ⟨rec, h1, entryOf_eq_some.mpr ⟨h2, h3, rfl⟩⟩

theorem buildMap_eq_filterMap {xs : List Record} (h : (keysOf xs).Nodup) :
    buildMap xs = xs.filterMap entryOf := by
  induction xs using List.reverseRecOn with
  | nil => rfl
  | append_singleton xs x ih =>
    rw [keysOf_append, keysOf_singleton] at h
    rw [buildMap_append, List.filterMap_append]
    by_cases hx : truthyId x.id = true
    · rw [if_pos hx] at h ⊢
      have hnotin : (x.id.getD "") ∉ keysOf xs := by
        have := List.disjoint_of_nodup_append h
        intro hmem
        exact this hmem (List.mem_singleton_self _)
      have hnothas : mapHas (x.id.getD "") (buildMap xs) = false := by
        rw [Bool.eq_false_iff]
        intro hh
        exact hnotin (mapHas_buildMap.mp hh)
      rw [mapSet_of_not_has hnothas, ih (List.Nodup.of_append_left h)]
      congr 1
      have hkey := recKey_of_truthy hx
      rw [recKey_eq_some] at hkey
      simp [entryOf, hx]
    · rw [if_neg hx] at h ⊢
      rw [List.append_nil] at h
      rw [ih h]
      have : entryOf x = none := by simp [entryOf, hx]
      simp [this]

theorem nodupKeys_of_nodup_keysOf {xs : List Record} (h : (keysOf xs).Nodup) :
    ((xs.filterMap entryOf).map Prod.fst).Nodup := by
  rw [keys_filterMap_entryOf]; exact h

/-- `new Map()` then `remoteMap.forEach((item, key) => mergedMap.set(key, item))`
copies a map with distinct keys verbatim. -/
theorem setAll_of_nodupKeys {m : List (String × Record)} (h : (m.map Prod.fst).Nodup) :
    m.foldl (fun acc e => mapSet e.1 e.2 acc) [] = m := by
  induction m using List.reverseRecOn with
  | nil => rfl
  | append_singleton m e ih =>
    rw [List.map_append] at h
    rw [List.foldl_append, List.foldl_cons, List.foldl_nil,
      ih (List.Nodup.of_append_left h)]
    have hnotin : e.1 ∉ m.map Prod.fst := by
      have := List.disjoint_of_nodup_append h
      intro hmem
      exact this hmem (by simp)
    have : mapHas e.1 m = false := by
      rw [Bool.eq_false_iff]
      intro hh
      exact hnotin (mapHas_iff_mem_keys.mp hh)
    rw [mapSet_of_not_has this]

/-- Structure of the merged map: the remote entries in order, then the local
entries whose identity the remote map lacks, in order. -/
theorem mergeMaps_eq {l r : List Record} (hl : (keysOf l).Nodup) (hr : (keysOf r).Nodup) :
    mergeMaps l r =
      r.filterMap entryOf ++
        (l.filterMap entryOf).filter (fun e => !mapHas e.1 (buildMap r)) := by
  rw [mergeMaps, buildMap_eq_filterMap hr, buildMap_eq_filterMap hl,
    setAll_of_nodupKeys (nodupKeys_of_nodup_keysOf hr)]
  rw [← buildMap_eq_filterMap hr]
  generalize hL : l.filterMap entryOf = L
  have hLnodup : (L.map Prod.fst).Nodup := hL ▸ nodupKeys_of_nodup_keysOf hl
  clear hL
  induction L using List.reverseRecOn with
  | nil => simp
  | append_singleton L e ih =>
    rw [List.map_append] at hLnodup
    rw [List.foldl_append, List.foldl_cons, List.foldl_nil,
      ih (List.Nodup.of_append_left hLnodup), List.filter_append]
    by_cases hc : mapHas e.1 (buildMap r) = true
    · simp [hc]
    · rw [Bool.not_eq_true] at hc
      have he1 : mapHas e.1 (buildMap r ++
          L.filter (fun e => !mapHas e.1 (buildMap r))) = false := by
        rw [mapHas_append, Bool.or_eq_false_iff]
        refine ⟨hc, ?_⟩
        rw [Bool.eq_false_iff]
        intro hh
        obtain ⟨e', he', hee⟩ := List.mem_map.mp (mapHas_iff_mem_keys.mp hh)
        have hmem : e.1 ∈ L.map Prod.fst :=
          List.mem_map.mpr ⟨e', List.mem_of_mem_filter he', hee⟩
        exact List.disjoint_of_nodup_append hLnodup hmem (by simp)
      simp only [hc, Bool.false_eq_true, if_false]
      rw [mapSet_of_not_has he1]
      simp [hc, List.append_assoc]

/-! ### Sorting lemmas -/

theorem filter_orderedInsert (x : Record) (xs : List Record) (k : Int) :
    (List.orderedInsert sortRel x xs).filter (fun rec => sortKey rec == k) =
      if sortKey x == k then x :: xs.filter (fun rec => sortKey rec == k)
      else xs.filter (fun rec => sortKey rec == k) := by
  induction xs with
  | nil =>
    simp only [List.orderedInsert, List.filter]
    split <;> simp_all
  | cons b t ih =>
    rw [List.orderedInsert]
    by_cases hr : sortRel x b
    · rw [if_pos hr]
      by_cases hxk : (sortKey x == k) = true <;>
        simp [List.filter_cons, hxk]
    · rw [if_neg hr]
      have hlt : sortKey x < sortKey b := lt_of_not_le hr
      by_cases hxk : (sortKey x == k) = true
      · have hbk : (sortKey b == k) = false := by
          rw [beq_eq_false_iff_ne]
          rw [beq_iff_eq] at hxk
          omega
        simp [List.filter_cons, hbk, ih, hxk]
      · have hxk' : (sortKey x == k) = false := by
          cases hb : (sortKey x == k)
          · rfl
          · exact absurd hb hxk
        simp [List.filter_cons, ih, hxk']

theorem filter_sortDesc (xs : List Record) (k : Int) :
    (sortDesc xs).filter (fun rec => sortKey rec == k) =
      xs.filter (fun rec => sortKey rec == k) := by
  induction xs with
  | nil => rfl
  | cons a t ih =>
    rw [sortDesc, List.insertionSort, filter_orderedInsert]
    rw [sortDesc] at ih
    by_cases hak : (sortKey a == k) = true <;>
      simp [List.filter_cons, hak, ih]

theorem sortDesc_sorted (xs : List Record) : (sortDesc xs).Sorted sortRel :=
  List.sorted_insertionSort sortRel xs

theorem sortDesc_perm (xs : List Record) : List.Perm (sortDesc xs) xs :=
  List.perm_insertionSort sortRel xs

/-! ### The merge on non-empty inputs -/

theorem mergeData_nonempty {t : String} {l r : List Record} (hl : l ≠ []) (hr : r ≠ []) :
    mergeData t (some l) (some r) = sortDesc (mergeUnion l r) := by
  simp [mergeData, List.isEmpty_iff, hl, hr]

theorem mem_mergeData {t : String} {l r : List Record} (hl : l ≠ []) (hr : r ≠ [])
    {rec : Record} :
    rec ∈ mergeData t (some l) (some r) ↔ rec ∈ mergeUnion l r := by
  rw [mergeData_nonempty hl hr]
  exact (sortDesc_perm _).mem_iff

theorem mem_map_snd_filterMap {xs : List Record} {rec : Record} :
    rec ∈ (xs.filterMap entryOf).map Prod.snd ↔ rec ∈ xs ∧ truthyId rec.id = true := by
  rw [List.mem_map]
  constructor
  · rintro ⟨⟨k, v⟩, he, hv⟩
    obtain ⟨h1, h2, h3⟩ := mem_filterMap_entryOf.mp he
    cases hv
    exact ⟨h1, by simp [truthyId, h2, h3]⟩
  · rintro ⟨h1, h2⟩
    have hkey := recKey_of_truthy h2
    rw [recKey_eq_some] at hkey
    exact ⟨(rec.id.getD "", rec), mem_filterMap_entryOf.mpr ⟨h1, hkey.1, hkey.2⟩, rfl⟩

theorem mem_keysOf_iff {xs : List Record} {s : String} (hs : s ≠ "") :
    s ∈ keysOf xs ↔ ∃ rec ∈ xs, rec.id = some s := by
  simp only [keysOf, List.mem_filterMap]
  constructor
  · rintro ⟨rec, h1, h2⟩
    exact ⟨rec, h1, (recKey_eq_some.mp h2).1⟩
  · rintro ⟨rec, h1, h2⟩
    exact ⟨rec, h1, recKey_eq_some.mpr ⟨h2, hs⟩⟩

theorem keysOf_map_snd {M : List (String × Record)}
    (h : ∀ e ∈ M, e.2.id = some e.1 ∧ e.1 ≠ "") :
    keysOf (M.map Prod.snd) = M.map Prod.fst := by
  induction M with
  | nil => rfl
  | cons e rest ih =>
    have he := h e (List.mem_cons_self e rest)
    have hkey : recKey e.2 = some e.1 := recKey_eq_some.mpr he
    simp only [List.map_cons, keysOf, List.filterMap_cons, hkey]
    exact congrArg (e.1 :: ·) (ih fun e' he' => h e' (List.mem_cons_of_mem _ he'))

/-- The invariant every entry of the merge maps satisfies: the value's `id`
is the (truthy) key. -/
def entryShape (e : String × Record) : Prop :=
  e.2.id = some e.1 ∧ e.1 ≠ ""

theorem forall_mapSet {P : String × Record → Prop} {m : List (String × Record)}
    (hm : ∀ e ∈ m, P e) {k : String} {v : Record} (hkv : P (k, v)) :
    ∀ e ∈ mapSet k v m, P e := by
  induction m with
  | nil =>
    intro e he
    simp only [mapSet, List.mem_singleton] at he
    exact he ▸ hkv
  | cons e' rest ih =>
    intro e he
    rw [mapSet] at he
    split at he
    · rcases List.mem_cons.mp he with h | h
      · exact h ▸ hkv
      · exact hm e (List.mem_cons_of_mem _ h)
    · rcases List.mem_cons.mp he with h | h
      · exact h ▸ hm e' (List.mem_cons_self _ _)
      · exact ih (fun a ha => hm a (List.mem_cons_of_mem _ ha)) e h

theorem truthy_entry {rec : Record} (h : truthyId rec.id = true) :
    entryShape (rec.id.getD "", rec) := by
  have hkey := recKey_of_truthy h
  rw [recKey_eq_some] at hkey
  exact hkey

theorem buildMap_shape (items : List Record) : ∀ e ∈ buildMap items, entryShape e := by
  rw [buildMap]
  generalize hacc : ([] : List (String × Record)) = acc
  have hbase : ∀ e ∈ acc, entryShape e := by rw [← hacc]; intro e he; cases he
  clear hacc
  induction items generalizing acc with
  | nil => exact hbase
  | cons x rest ih =>
    rw [List.foldl_cons]
    apply ih
    by_cases hx : truthyId x.id = true
    · rw [if_pos hx]
      exact forall_mapSet hbase (truthy_entry hx)
    · rw [if_neg hx]
      exact hbase

theorem foldl_set_shape :
    ∀ (L acc : List (String × Record)), (∀ e ∈ L, entryShape e) →
      (∀ e ∈ acc, entryShape e) →
      ∀ e ∈ L.foldl (fun m e => mapSet e.1 e.2 m) acc, entryShape e := by
  intro L
  induction L with
  | nil => intro acc _ hacc; exact hacc
  | cons x rest ih =>
    intro acc hL hacc
    rw [List.foldl_cons]
    exact ih _ (fun a ha => hL a (List.mem_cons_of_mem _ ha))
      (forall_mapSet hacc (hL x (List.mem_cons_self _ _)))

theorem foldl_condSet_shape (cond : String × Record → Bool) :
    ∀ (L acc : List (String × Record)), (∀ e ∈ L, entryShape e) →
      (∀ e ∈ acc, entryShape e) →
      ∀ e ∈ L.foldl (fun m e => if cond e then m else mapSet e.1 e.2 m) acc, entryShape e := by
  intro L
  induction L with
  | nil => intro acc _ hacc; exact hacc
  | cons x rest ih =>
    intro acc hL hacc
    rw [List.foldl_cons]
    apply ih _ (fun a ha => hL a (List.mem_cons_of_mem _ ha))
    split
    · exact hacc
    · exact forall_mapSet hacc (hL x (List.mem_cons_self _ _))

theorem mergeMaps_shape (l r : List Record) : ∀ e ∈ mergeMaps l r, entryShape e := by
  rw [mergeMaps]
  exact foldl_condSet_shape (fun e => mapHas e.1 (buildMap r)) _ _
    (buildMap_shape l)
    (foldl_set_shape _ _ (buildMap_shape r) (fun e he => absurd he (List.not_mem_nil e)))

theorem mergeUnion_truthy {l r : List Record} {rec : Record} (h : rec ∈ mergeUnion l r) :
    truthyId rec.id = true := by
  obtain ⟨e, he, hv⟩ := List.mem_map.mp h
  obtain ⟨h1, h2⟩ := mergeMaps_shape l r e he
  rw [hv] at h1
  simp [truthyId, h1, h2]

/-- Membership in the pre-sort merged array, under identity uniqueness of
each input. -/
theorem mem_mergeUnion_iff {l r : List Record}
    (hnl : (keysOf l).Nodup) (hnr : (keysOf r).Nodup) {rec : Record} :
    rec ∈ mergeUnion l r ↔
      (rec ∈ r ∧ truthyId rec.id = true) ∨
      (rec ∈ l ∧ truthyId rec.id = true ∧ rec.id.getD "" ∉ keysOf r) := by
  rw [mergeUnion, mergeMaps_eq hnl hnr, List.map_append, List.mem_append]
  constructor
  · rintro (h | h)
    · exact Or.inl (mem_map_snd_filterMap.mp h)
    · obtain ⟨⟨k, v⟩, he, hv⟩ := List.mem_map.mp h
      obtain ⟨hefm, hp⟩ := List.mem_filter.mp he
      obtain ⟨h1, h2, h3⟩ := mem_filterMap_entryOf.mp hefm
      subst hv
      refine Or.inr ⟨h1, by simp [truthyId, h2, h3], ?_⟩
      have hk : v.id.getD "" = k := by rw [h2]; rfl
      rw [hk]
      intro hmem
      have hp' : mapHas k (buildMap r) = false := by simpa using hp
      have htrue := mapHas_buildMap.mpr hmem
      rw [hp'] at htrue
      cases htrue
  · rintro (⟨h1, h2⟩ | ⟨h1, h2, h3⟩)
    · exact Or.inl (mem_map_snd_filterMap.mpr ⟨h1, h2⟩)
    · right
      have hkey := recKey_of_truthy h2
      rw [recKey_eq_some] at hkey
      have hfm : (rec.id.getD "", rec) ∈ l.filterMap entryOf :=
        mem_filterMap_entryOf.mpr ⟨h1, hkey.1, hkey.2⟩
      have hp : (!mapHas (rec.id.getD "") (buildMap r)) = true := by
        cases hb : mapHas (rec.id.getD "") (buildMap r)
        · rfl
        · exact absurd (mapHas_buildMap.mp hb) h3
      exact List.mem_map.mpr
        ⟨(rec.id.getD "", rec), List.mem_filter.mpr ⟨hfm, hp⟩, rfl⟩

/-! ### Claims about the Record Merger -/

/-- **C1**: for non-empty local and remote lists (whose truthy identities are
unique within each list, the collection invariant of the data model), the
merge contains the remote record for every identity present in `remote`,
the unchanged local record for every identity present only in `local`,
every merged record is one of those two kinds, the identity set of the
output is the union of the input identity sets, and output identities are
unique.  In particular, for an identity present in both, the remote
record's field values replace the local copy. -/
theorem mergeData_remote_wins (t : String) (l r : List Record)
    (hl : l ≠ []) (hr : r ≠ []) (hnl : (keysOf l).Nodup) (hnr : (keysOf r).Nodup) :
    (∀ rec ∈ r, truthyId rec.id = true → rec ∈ mergeData t (some l) (some r)) ∧
    (∀ rec ∈ l, truthyId rec.id = true → (∀ rec2 ∈ r, rec2.id ≠ rec.id) →
      rec ∈ mergeData t (some l) (some r)) ∧
    (∀ rec ∈ mergeData t (some l) (some r), truthyId rec.id = true ∧
      (rec ∈ r ∨ (rec ∈ l ∧ ∀ rec2 ∈ r, rec2.id ≠ rec.id))) ∧
    (∀ k : String,
      k ∈ keysOf (mergeData t (some l) (some r)) ↔ k ∈ keysOf l ∨ k ∈ keysOf r) ∧
    (keysOf (mergeData t (some l) (some r))).Nodup := by
  have hkeybridge : ∀ rec : Record, truthyId rec.id = true →
      (rec.id.getD "" ∉ keysOf r ↔ ∀ rec2 ∈ r, rec2.id ≠ rec.id) := by
    intro rec h2
    have hkey := recKey_of_truthy h2
    rw [recKey_eq_some] at hkey
    rw [mem_keysOf_iff hkey.2]
    constructor
    · intro hno rec2 hrec2 heq
      exact hno ⟨rec2, hrec2, heq.trans hkey.1⟩
    · rintro hall ⟨rec2, hrec2, hid⟩
      exact hall rec2 hrec2 (hid.trans hkey.1.symm)
  have hmem : ∀ rec : Record, rec ∈ mergeData t (some l) (some r) ↔
      (rec ∈ r ∧ truthyId rec.id = true) ∨
      (rec ∈ l ∧ truthyId rec.id = true ∧ rec.id.getD "" ∉ keysOf r) := by
    intro rec
    rw [mem_mergeData hl hr, mem_mergeUnion_iff hnl hnr]
  refine ⟨?_, ?_, ?_, ?_, ?_⟩
  · intro rec hrec h2
    exact (hmem rec).mpr (Or.inl ⟨hrec, h2⟩)
  · intro rec hrec h2 hall
    exact (hmem rec).mpr (Or.inr ⟨hrec, h2, (hkeybridge rec h2).mpr hall⟩)
  · intro rec hrec
    rcases (hmem rec).mp hrec with ⟨h1, h2⟩ | ⟨h1, h2, h3⟩
    · exact ⟨h2, Or.inl h1⟩
    · exact ⟨h2, Or.inr ⟨h1, (hkeybridge rec h2).mp h3⟩⟩
  · intro k
    constructor
    · intro hk
      have hkne : k ≠ "" := by
        obtain ⟨rec, _, hrk⟩ := List.mem_filterMap.mp hk
        exact (recKey_eq_some.mp hrk).2
      obtain ⟨rec, hrec, hid⟩ := (mem_keysOf_iff hkne).mp hk
      rcases (hmem rec).mp hrec with ⟨h1, _⟩ | ⟨h1, h2, h3⟩
      · exact Or.inr ((mem_keysOf_iff hkne).mpr ⟨rec, h1, hid⟩)
      · exact Or.inl ((mem_keysOf_iff hkne).mpr ⟨rec, h1, hid⟩)
    · intro hk
      have hkne : k ≠ "" := by
        rcases hk with hk | hk <;>
        · obtain ⟨rec, _, hrk⟩ := List.mem_filterMap.mp hk
          exact (recKey_eq_some.mp hrk).2
      by_cases hkr : k ∈ keysOf r
      · obtain ⟨rec, hrec, hid⟩ := (mem_keysOf_iff hkne).mp hkr
        have h2 : truthyId rec.id = true := by simp [truthyId, hid, hkne]
        exact (mem_keysOf_iff hkne).mpr
          ⟨rec, (hmem rec).mpr (Or.inl ⟨hrec, h2⟩), hid⟩
      · rcases hk with hk | hk
        · obtain ⟨rec, hrec, hid⟩ := (mem_keysOf_iff hkne).mp hk
          have h2 : truthyId rec.id = true := by simp [truthyId, hid, hkne]
          have h3 : rec.id.getD "" ∉ keysOf r := by
            have : rec.id.getD "" = k := by rw [hid]; rfl
            rw [this]; exact hkr
          exact (mem_keysOf_iff hkne).mpr
            ⟨rec, (hmem rec).mpr (Or.inr ⟨hrec, h2, h3⟩), hid⟩
        · exact absurd hk hkr
  · rw [mergeData_nonempty hl hr]
    have hperm : List.Perm (keysOf (sortDesc (mergeUnion l r))) (keysOf (mergeUnion l r)) :=
      List.Perm.filterMap recKey (sortDesc_perm _)
    rw [hperm.nodup_iff]
    rw [mergeUnion, mergeMaps_eq hnl hnr]
    have hshape : ∀ e ∈ r.filterMap entryOf ++
        (l.filterMap entryOf).filter (fun e => !mapHas e.1 (buildMap r)),
        e.2.id = some e.1 ∧ e.1 ≠ "" := by
      intro e he
      rcases List.mem_append.mp he with he | he
      · obtain ⟨k, v⟩ := e
        obtain ⟨_, h2, h3⟩ := mem_filterMap_entryOf.mp he
        exact ⟨h2, h3⟩
      · obtain ⟨k, v⟩ := e
        obtain ⟨_, h2, h3⟩ := mem_filterMap_entryOf.mp (List.mem_of_mem_filter he)
        exact ⟨h2, h3⟩
    rw [keysOf_map_snd hshape, List.map_append, List.nodup_append]
    refine ⟨by rw [keys_filterMap_entryOf]; exact hnr, ?_, ?_⟩
    · have hsub : List.Sublist
          (((l.filterMap entryOf).filter
            (fun e => !mapHas e.1 (buildMap r))).map Prod.fst)
          ((l.filterMap entryOf).map Prod.fst) :=
        List.Sublist.map Prod.fst (List.filter_sublist _)
      rw [keys_filterMap_entryOf] at hsub
      exact List.Nodup.sublist hsub hnl
    · intro k hk hk2
      rw [keys_filterMap_entryOf] at hk
      obtain ⟨e, he, hek⟩ := List.mem_map.mp hk2
      have hp := (List.mem_filter.mp he).2
      have hp' : mapHas e.1 (buildMap r) = false := by simpa using hp
      have := mapHas_buildMap.mpr (hek ▸ hk : e.1 ∈ keysOf r)
      rw [hp'] at this
      cases this

/-- Concrete instantiation of `mergeData_remote_wins`: local has identities
`a` (stale copy) and `b`, remote has `a`; the merge keeps remote `a` and
local `b`. -/
theorem mergeData_remote_wins_witness :
    (([{ id := some "a", createdAt := some 1, payload := 10 },
       { id := some "b", createdAt := some 9, payload := 11 }] : List Record) ≠ []) ∧
    (([{ id := some "a", createdAt := some 5, payload := 20 }] : List Record) ≠ []) ∧
    (keysOf [{ id := some "a", createdAt := some 1, payload := 10 },
             { id := some "b", createdAt := some 9, payload := 11 }]).Nodup ∧
    (keysOf [{ id := some "a", createdAt := some 5, payload := 20 }]).Nodup ∧
    ((∀ rec ∈ ([{ id := some "a", createdAt := some 5, payload := 20 }] : List Record),
        truthyId rec.id = true →
        rec ∈ mergeData "Photo"
          (some [{ id := some "a", createdAt := some 1, payload := 10 },
                 { id := some "b", createdAt := some 9, payload := 11 }])
          (some [{ id := some "a", createdAt := some 5, payload := 20 }])) ∧
      (∀ rec ∈ ([{ id := some "a", createdAt := some 1, payload := 10 },
                 { id := some "b", createdAt := some 9, payload := 11 }] : List Record),
        truthyId rec.id = true →
        (∀ rec2 ∈ ([{ id := some "a", createdAt := some 5, payload := 20 }] : List Record),
          rec2.id ≠ rec.id) →
        rec ∈ mergeData "Photo"
          (some [{ id := some "a", createdAt := some 1, payload := 10 },
                 { id := some "b", createdAt := some 9, payload := 11 }])
          (some [{ id := some "a", createdAt := some 5, payload := 20 }])) ∧
      (∀ rec ∈ mergeData "Photo"
          (some [{ id := some "a", createdAt := some 1, payload := 10 },
                 { id := some "b", createdAt := some 9, payload := 11 }])
          (some [{ id := some "a", createdAt := some 5, payload := 20 }]),
        truthyId rec.id = true ∧
        (rec ∈ ([{ id := some "a", createdAt := some 5, payload := 20 }] : List Record) ∨
          (rec ∈ ([{ id := some "a", createdAt := some 1, payload := 10 },
                   { id := some "b", createdAt := some 9, payload := 11 }] : List Record) ∧
            ∀ rec2 ∈ ([{ id := some "a", createdAt := some 5, payload := 20 }] : List Record),
              rec2.id ≠ rec.id))) ∧
      (∀ k : String,
        k ∈ keysOf (mergeData "Photo"
          (some [{ id := some "a", createdAt := some 1, payload := 10 },
                 { id := some "b", createdAt := some 9, payload := 11 }])
          (some [{ id := some "a", createdAt := some 5, payload := 20 }])) ↔
          k ∈ keysOf [{ id := some "a", createdAt := some 1, payload := 10 },
                      { id := some "b", createdAt := some 9, payload := 11 }] ∨
          k ∈ keysOf [{ id := some "a", createdAt := some 5, payload := 20 }]) ∧
      (keysOf (mergeData "Photo"
          (some [{ id := some "a", createdAt := some 1, payload := 10 },
                 { id := some "b", createdAt := some 9, payload := 11 }])
          (some [{ id := some "a", createdAt := some 5, payload := 20 }]))).Nodup) :=
  ⟨by decide, by decide, by decide, by decide,
    mergeData_remote_wins "Photo" _ _ (by decide) (by decide) (by decide) (by decide)⟩

/-- **C2**: merging with a missing or empty remote list returns the local
list unchanged (same list, hence same ordering), and merging with a missing
or empty local list returns the remote list unchanged; the source decides
these cases in its first two lines, before building any map. -/
theorem mergeData_empty_cases (t : String) (l r : List Record) :
    mergeData t none (some r) = r ∧
    mergeData t (some []) (some r) = r ∧
    mergeData t (some l) none = l ∧
    mergeData t (some l) (some []) = l := by
  refine ⟨rfl, by simp [mergeData], ?_, ?_⟩
  · cases l with
    | nil => simp [mergeData]
    | cons x xs => simp [mergeData]
  · cases l with
    | nil => simp [mergeData]
    | cons x xs => simp [mergeData]

/-- **C3**: on non-empty inputs the merge is exactly the stable descending
sort, by `createdAt` with epoch-zero fallback (`sortKey`), of the pre-sort
union array `mergeUnion`: the output is pairwise sorted (`sortRel`), and
records with equal sort keys keep their prior relative order (the filter at
each key is unchanged).  Determinism for identical inputs is immediate
since `mergeData` is a function. -/
theorem mergeData_sorted_stable (t : String) (l r : List Record)
    (hl : l ≠ []) (hr : r ≠ []) :
    mergeData t (some l) (some r) = sortDesc (mergeUnion l r) ∧
    (mergeData t (some l) (some r)).Sorted sortRel ∧
    ∀ k : Int, (mergeData t (some l) (some r)).filter (fun rec => sortKey rec == k) =
      (mergeUnion l r).filter (fun rec => sortKey rec == k) := by
  refine ⟨mergeData_nonempty hl hr, ?_, ?_⟩
  · rw [mergeData_nonempty hl hr]
    exact sortDesc_sorted _
  · intro k
    rw [mergeData_nonempty hl hr]
    exact filter_sortDesc _ k

/-- Concrete instantiation of `mergeData_sorted_stable` (two records tied at
`createdAt = 5` and one without `createdAt`). -/
theorem mergeData_sorted_stable_witness :
    (([{ id := some "x", createdAt := some 5, payload := 1 },
       { id := some "n", payload := 3 }] : List Record) ≠ []) ∧
    (([{ id := some "a", createdAt := some 5, payload := 2 }] : List Record) ≠ []) ∧
    (mergeData "Diary"
        (some [{ id := some "x", createdAt := some 5, payload := 1 },
               { id := some "n", payload := 3 }])
        (some [{ id := some "a", createdAt := some 5, payload := 2 }]) =
      sortDesc (mergeUnion
        [{ id := some "x", createdAt := some 5, payload := 1 },
         { id := some "n", payload := 3 }]
        [{ id := some "a", createdAt := some 5, payload := 2 }]) ∧
      (mergeData "Diary"
        (some [{ id := some "x", createdAt := some 5, payload := 1 },
               { id := some "n", payload := 3 }])
        (some [{ id := some "a", createdAt := some 5, payload := 2 }])).Sorted sortRel ∧
      ∀ k : Int, (mergeData "Diary"
        (some [{ id := some "x", createdAt := some 5, payload := 1 },
               { id := some "n", payload := 3 }])
        (some [{ id := some "a", createdAt := some 5, payload := 2 }])).filter
          (fun rec => sortKey rec == k) =
        (mergeUnion
          [{ id := some "x", createdAt := some 5, payload := 1 },
           { id := some "n", payload := 3 }]
          [{ id := some "a", createdAt := some 5, payload := 2 }]).filter
          (fun rec => sortKey rec == k)) :=
  ⟨by decide, by decide,
    mergeData_sorted_stable "Diary" _ _ (by decide) (by decide)⟩

/-- **C10**: when both inputs are non-empty, every record of the merged
output has a truthy `id` — any record whose `id` is absent or falsy, in
either input, is dropped (only truthy ids become map keys) — and the
concrete conjunct shows the output can therefore be strictly smaller than
the combined inputs: a local record without `id` vanishes. -/
theorem mergeData_drops_falsy_ids (t : String) (l r : List Record)
    (hl : l ≠ []) (hr : r ≠ []) :
    (∀ rec ∈ mergeData t (some l) (some r), truthyId rec.id = true) ∧
    mergeData "Photo" (some [{ id := none, createdAt := some 7, payload := 30 }])
        (some [{ id := some "a", createdAt := some 5, payload := 20 }]) =
      [{ id := some "a", createdAt := some 5, payload := 20 }] := by
  refine ⟨?_, by decide⟩
  intro rec hrec
  rw [mergeData_nonempty hl hr] at hrec
  exact mergeUnion_truthy ((sortDesc_perm _).subset hrec)

/-- Concrete instantiation of `mergeData_drops_falsy_ids`: a one-record
local list with a falsy id against a one-record remote list. -/
theorem mergeData_drops_falsy_ids_witness :
    (([{ id := none, createdAt := some 7, payload := 30 }] : List Record) ≠ []) ∧
    (([{ id := some "a", createdAt := some 5, payload := 20 }] : List Record) ≠ []) ∧
    ((∀ rec ∈ mergeData "Photo"
        (some [{ id := none, createdAt := some 7, payload := 30 }])
        (some [{ id := some "a", createdAt := some 5, payload := 20 }]),
        truthyId rec.id = true) ∧
      mergeData "Photo" (some [{ id := none, createdAt := some 7, payload := 30 }])
          (some [{ id := some "a", createdAt := some 5, payload := 20 }]) =
        [{ id := some "a", createdAt := some 5, payload := 20 }]) :=
  ⟨by decide, by decide,
    mergeData_drops_falsy_ids "Photo" _ _ (by decide) (by decide)⟩

/-! ### Pending-operation queue (`LoveSiteDataSync.queueSyncOperation`,
leancloud-proxy.js lines 610-643)

`this.pendingSyncs` is a `Map` from collection name to an array of
operations; it is modelled as a function from names to lists.  The
fire-and-forget `processPendingSyncs()` call at the end of
`queueSyncOperation` suspends at its first remote `await` before touching
the queue, so the drain is modelled as a separate transition
(`processPendingSyncs` below). -/

inductive SyncAction where
  | add
  | update
  | delete
deriving DecidableEq, Repr

/-- A queued operation `{action, data, timestamp: Date.now()}`. -/
structure SyncOp where
  action : SyncAction
  data : Record
  timestamp : Int
deriving DecidableEq, Repr

/-- The de-duplication predicate
`op.action === 'update' && op.data.id === data.id`. -/
def isQueuedUpdateFor (id : String) (op : SyncOp) : Bool :=
  op.action == SyncAction.update && op.data.id == some id

/-- `findIndex` + `splice(existingIndex, 1)`: remove the first matching
queued update. -/
def removeFirstQueuedUpdate (id : String) : List SyncOp → List SyncOp
  | [] => []
  | op :: rest =>
    if isQueuedUpdateFor id op then rest else op :: removeFirstQueuedUpdate id rest

/-- `LoveSiteDataSync.queueSyncOperation(action, type, data)` at time `now`. -/
def queueSyncOperation (action : SyncAction) (type : String) (data : Record) (now : Int)
    (pendingSyncs : String → List SyncOp) : String → List SyncOp :=
  let operations := pendingSyncs type
  let operation : SyncOp := ⟨action, data, now⟩
  let operations :=
    if action = SyncAction.update ∧ truthyId data.id = true then
      removeFirstQueuedUpdate (data.id.getD "") operations
    else operations
  let operations := operations ++ [operation]
  fun t => if t = type then operations else pendingSyncs t

/-- One enqueue request: action, collection, record payload, clock value. -/
structure EnqueueReq where
  action : SyncAction
  type : String
  data : Record
  now : Int

/-- A whole sequence of `queueSyncOperation` calls starting from the empty
queue map (`new Map()` in the constructor). -/
def applyEnqueues (reqs : List EnqueueReq) : String → List SyncOp :=
  reqs.foldl (fun p q => queueSyncOperation q.action q.type q.data q.now p) (fun _ => [])

/-! ### Sync coordinator state (`LoveSiteDataSync`) -/

/-- The mutable fields of `LoveSiteDataSync` relevant to the claims:
`this.syncing`, `this.isInitialized`, `this.localData` (in-memory
snapshot), the `localStorage` mirror written by `saveLocalData`, and
`this.pendingSyncs`. -/
structure SyncState where
  syncing : Bool
  isInitialized : Bool
  localData : String → List Record
  localStore : String → List Record
  pendingSyncs : String → List SyncOp

/-- `LoveSiteDataSync.syncDataType(type)`: fetch remote (`env type`), merge,
store, notify.  The `catch` branch returns the old data with no state
change; fetch errors are already absorbed by `getTableData` returning
`[]`, so `env` is total. -/
def syncDataType (env : String → List Record) (type : String) (st : SyncState) : SyncState :=
  if st.isInitialized = false then st
  else
    let remoteData := env type
    let mergedData := mergeData type (some (st.localData type)) (some remoteData)
    { st with
      localData := fun t => if t = type then mergedData else st.localData t,
      localStore := fun t => if t = type then mergedData else st.localStore t }

/-- `LoveSiteDataSync.syncAllData()` (leancloud-proxy.js lines 361-389):
returns `false` immediately when already syncing; otherwise syncs every
collection and clears the flag in `finally`. -/
def syncAllData (env : String → List Record) (st : SyncState) : Bool × SyncState :=
  if st.syncing then (false, st)
  else if st.isInitialized = false then (false, st)
  else
    let st1 := { st with syncing := true }
    let st2 := dataTypes.foldl (fun s t => syncDataType env t s) st1
    (true, { st2 with syncing := false })

/-! ### `addItem` and temporary identifiers -/

/-- `const chars = '0123456789abcdef'`. -/
def hexChars : List Char := "0123456789abcdef".toList

theorem hexChars_length : hexChars.length = 16 := rfl

/-- `chars.charAt(Math.floor(Math.random() * chars.length))` for one draw. -/
def hexDigit (i : Fin 16) : Char :=
  hexChars.get (Fin.cast hexChars_length.symm i)

/-- `LoveSiteDataSync.generateTempId()` (lines 514-522): `'temp_'` followed
by 18 random hex characters, the randomness supplied by `rnd`. -/
def generateTempId (rnd : Nat → Fin 16) : String :=
  "temp_" ++ String.mk ((List.range 18).map (fun i => hexDigit (rnd i)))

/-- `LoveSiteDataSync.addItem(type, data)` (lines 476-512) at time `now`:
reject unknown collections, otherwise build the new record (spread `data`,
temp id, fresh timestamps, `isLocal: true`), prepend it to the snapshot,
persist, and if initialized enqueue a CREATE. -/
def addItem (type : String) (data : Record) (rnd : Nat → Fin 16) (now : Int)
    (st : SyncState) : Option Record × SyncState :=
  if type ∈ dataTypes then
    let newItem : Record :=
      { data with
        id := some (generateTempId rnd),
        createdAt := some now,
        updatedAt := some now,
        isLocal := true }
    let newList := newItem :: st.localData type
    let st1 := { st with
      localData := fun t => if t = type then newList else st.localData t,
      localStore := fun t => if t = type then newList else st.localStore t }
    let st2 :=
      if st1.isInitialized then
        { st1 with pendingSyncs := queueSyncOperation SyncAction.add type newItem now st1.pendingSyncs }
      else st1
    (some newItem, st2)
  else (none, st)

/-! ### `deleteItem` -/

/-- `LoveSiteDataSync.deleteItem(type, id)` (lines 567-608) at time `now`:
reject unknown collections and absent ids; otherwise remove the record from
the snapshot outright (`filter(item => item.id !== id)`), persist, and
enqueue a DELETE only when initialized and the record was not locally
flagged. -/
def deleteItem (type : String) (id : String) (now : Int) (st : SyncState) :
    Bool × SyncState :=
  if type ∈ dataTypes then
    match (st.localData type).find? (fun item => item.id == some id) with
    | none => (false, st)
    | some itemToDelete =>
      let newList := (st.localData type).filter (fun item => !(item.id == some id))
      let st1 := { st with
        localData := fun t => if t = type then newList else st.localData t,
        localStore := fun t => if t = type then newList else st.localStore t }
      let st2 :=
        if st1.isInitialized ∧ itemToDelete.isLocal = false then
          { st1 with pendingSyncs :=
            queueSyncOperation SyncAction.delete type { id := some id } now st1.pendingSyncs }
        else st1
      (true, st2)
  else (false, st)

/-! ### Draining the queue (`LoveSiteDataSync.processPendingSyncs`,
leancloud-proxy.js lines 645-701)

Each attempted operation either completes (possibly having received a
`null` remote record, which the proxy returns after swallowing its own
errors) or throws; the outcome of the remote call is supplied by the
environment oracle `env`.  A thrown error lands in the `catch` block,
which keeps the operation queued unless it is older than 24 hours. -/

/-- Outcome of the remote call an operation performs: `ok r` models the
proxy resolving with record `r` (or `null`), `exn` models a thrown error
reaching the `catch` of `processPendingSyncs`. -/
inductive AttemptOutcome where
  | ok (remote : Option Record)
  | exn
deriving DecidableEq, Repr

/-- `LeanCloudProxy.isValidObjectId`: `/^[0-9a-fA-F]{24}$/`. -/
def isValidObjectId (id : String) : Bool :=
  id.length == 24 &&
    id.toList.all (fun c => c.isDigit || ('a' ≤ c && c ≤ 'f') || ('A' ≤ c && c ≤ 'F'))

/-- `24 * 60 * 60 * 1000` milliseconds. -/
def staleMs : Int := 24 * 60 * 60 * 1000

/-- Shared success path of `processAddOperation`/`processUpdateOperation`:
if the remote returned a record, replace the matching snapshot entry by it
(with `isLocal: false`) and persist. -/
def applyRemoteItem (type : String) (data : Record) (remoteItem : Option Record)
    (st : SyncState) : SyncState :=
  match remoteItem with
  | none => st
  | some r =>
    match (st.localData type).findIdx? (fun item => item.id == data.id) with
    | none => st
    | some i =>
      let newList := (st.localData type).set i { r with isLocal := false }
      { st with
        localData := fun t => if t = type then newList else st.localData t,
        localStore := fun t => if t = type then newList else st.localStore t }

/-- Processing one operation inside the `try`: `none` means the attempt
threw.  `processUpdateOperation`/`processDeleteOperation` skip the remote
call entirely when the id is not a valid remote object id. -/
def processOp (env : SyncOp → AttemptOutcome) (type : String) (op : SyncOp)
    (st : SyncState) : Option SyncState :=
  match op.action with
  | SyncAction.add =>
    match env op with
    | AttemptOutcome.exn => none
    | AttemptOutcome.ok remoteItem => some (applyRemoteItem type op.data remoteItem st)
  | SyncAction.update =>
    if isValidObjectId (op.data.id.getD "") then
      match env op with
      | AttemptOutcome.exn => none
      | AttemptOutcome.ok remoteItem => some (applyRemoteItem type op.data remoteItem st)
    else some st
  | SyncAction.delete =>
    if isValidObjectId (op.data.id.getD "") then
      match env op with
      | AttemptOutcome.exn => none
      | AttemptOutcome.ok _ => some st
    else some st

/-- Whether processing `op` throws; by `processOp`'s shape this does not
depend on the state. -/
def opThrows (env : SyncOp → AttemptOutcome) (op : SyncOp) : Bool :=
  match op.action with
  | SyncAction.add => env op == AttemptOutcome.exn
  | SyncAction.update =>
    isValidObjectId (op.data.id.getD "") && (env op == AttemptOutcome.exn)
  | SyncAction.delete =>
    isValidObjectId (op.data.id.getD "") && (env op == AttemptOutcome.exn)

/-- The `for (let i = 0; ...)` loop with `splice(i, 1); i--` on success and
on stale failure: returns the surviving operations (in order) and the final
state. -/
def processOpsLoop (env : SyncOp → AttemptOutcome) (type : String) (now : Int) :
    List SyncOp → SyncState → List SyncOp × SyncState
  | [], st => ([], st)
  | op :: rest, st =>
    match processOp env type op st with
    | some st1 => processOpsLoop env type now rest st1
    | none =>
      if now - op.timestamp > staleMs then
        processOpsLoop env type now rest st
      else
        let res := processOpsLoop env type now rest st
        (op :: res.1, res.2)

/-- `LoveSiteDataSync.processPendingSyncs()` at time `now`: skipped when a
sync is in flight or before initialization; otherwise drains each
collection's queue in order and writes the survivors back.  The
`for...of this.pendingSyncs` map iteration is modelled by iterating the
fixed `dataTypes` key universe. -/
def processPendingSyncs (env : SyncOp → AttemptOutcome) (now : Int) (st : SyncState) :
    SyncState :=
  if st.syncing || !st.isInitialized then st
  else
    let st1 := { st with syncing := true }
    let st2 := dataTypes.foldl
      (fun s t =>
        let res := processOpsLoop env t now (s.pendingSyncs t) s
        { res.2 with pendingSyncs := fun u => if u = t then res.1 else res.2.pendingSyncs u })
      st1
    { st2 with syncing := false }

/-! ### The `SimpleDataSync` variant (src/unnamed/part_000)

Only the operations cited by the claims are embedded: `deleteItem`
(lines 1138-1186) and `notifyDataUpdated` (lines 1362-1383). -/

/-- The fields of `SimpleDataSync` the embedded operations touch. -/
structure SimpleState where
  isReady : Bool
  data : String → List Record

/-- `SimpleDataSync.deleteItem(type, id)`: not-ready or not-found throws
(caught, returning `false`); a record whose id starts with `temp_` is
spliced out; any other record is kept but marked
`{isLocal: true, isDeleted: true, isModified: false, isNew: false}` until a
later `syncAllData` confirms the remote delete. -/
def deleteItemSimple (type : String) (id : String) (st : SimpleState) :
    Bool × SimpleState :=
  if st.isReady = false then (false, st)
  else
    match (st.data type).findIdx? (fun item => item.id == some id) with
    | none => (false, st)
    | some i =>
      let deletedItem := (st.data type).getD i ({ id := none })
      let markedItem : Record :=
        { deletedItem with
          isLocal := true, isDeleted := true, isModified := false, isNew := false }
      if (deletedItem.id.getD "").startsWith "temp_" then
        let newData := fun t => if t = type then (st.data type).eraseIdx i else st.data t
        (true, { st with data := newData })
      else
        let newData := fun t => if t = type then (st.data type).set i markedItem else st.data t
        (true, { st with data := newData })

/-! ### Change notifiers

A callback is identified by a number; the oracle `thr` says which
callbacks throw when invoked.  Both notifiers are modelled as returning
the list of callbacks actually invoked (in invocation order) together with
whether an exception propagates to the caller. -/

/-- `LoveSiteDataSync.notifyDataUpdated` (leancloud-proxy.js lines 881-884):
`this.syncListeners.forEach(callback => callback(type, data))` with no
`try`/`catch` — a throwing callback aborts the `forEach` and the exception
propagates. -/
def notifyDataUpdated (thr : Nat → Bool) : List Nat → List Nat × Bool
  | [] => ([], false)
  | cb :: rest =>
    if thr cb then ([cb], true)
    else
      let res := notifyDataUpdated thr rest
      (cb :: res.1, res.2)

/-- `SimpleDataSync.notifyDataUpdated` (part_000 lines 1362-1383) on the
`type && data` path: every callback runs inside its own `try`/`catch`
(failures only logged), and the whole loop is inside another `try`/`catch`,
so nothing propagates. -/
def notifyDataUpdatedSimple (thr : Nat → Bool) : List Nat → List Nat × Bool
  | [] => ([], false)
  | cb :: rest =>
    let res := notifyDataUpdatedSimple thr rest
    (cb :: res.1, false)

/-! ### Queue lemmas and claims C4, C5 -/

theorem isQueuedUpdateFor_mk {id : String} {action : SyncAction} {data : Record} {ts : Int} :
    isQueuedUpdateFor id ⟨action, data, ts⟩ = true ↔
      action = SyncAction.update ∧ data.id = some id := by
  simp [isQueuedUpdateFor]

theorem removeFirstQueuedUpdate_sublist (id : String) (ops : List SyncOp) :
    List.Sublist (removeFirstQueuedUpdate id ops) ops := by
  induction ops with
  | nil => exact List.Sublist.refl _
  | cons op rest ih =>
    rw [removeFirstQueuedUpdate]
    split
    · exact List.sublist_cons_self op rest
    · exact List.Sublist.cons₂ op ih

theorem filter_removeFirst_of_le_one {id : String} {ops : List SyncOp}
    (h : (ops.filter (isQueuedUpdateFor id)).length ≤ 1) :
    (removeFirstQueuedUpdate id ops).filter (isQueuedUpdateFor id) = [] := by
  induction ops with
  | nil => rfl
  | cons op rest ih =>
    by_cases hp : isQueuedUpdateFor id op = true
    · rw [removeFirstQueuedUpdate, if_pos hp]
      rw [List.filter_cons_of_pos hp, List.length_cons] at h
      have : (rest.filter (isQueuedUpdateFor id)).length = 0 := by omega
      exact List.length_eq_zero.mp this
    · rw [removeFirstQueuedUpdate, if_neg hp, List.filter_cons_of_neg hp]
      rw [List.filter_cons_of_neg hp] at h
      exact ih h

/-- The per-(collection, identity) invariant: at most one queued UPDATE. -/
def atMostOneUpdate (pendingSyncs : String → List SyncOp) : Prop :=
  ∀ (t id : String), id ≠ "" →
    ((pendingSyncs t).filter (isQueuedUpdateFor id)).length ≤ 1

theorem atMostOneUpdate_empty : atMostOneUpdate (fun _ => []) := by
  intro t id _
  simp

theorem atMostOneUpdate_queue {p : String → List SyncOp} (hp : atMostOneUpdate p)
    (action : SyncAction) (type : String) (data : Record) (now : Int) :
    atMostOneUpdate (queueSyncOperation action type data now p) := by
  intro t id hid
  simp only [queueSyncOperation]
  by_cases ht : t = type
  · rw [if_pos ht]
    subst ht
    rw [List.filter_append, List.length_append]
    by_cases hnew : isQueuedUpdateFor id ⟨action, data, now⟩ = true
    · obtain ⟨ha, hd⟩ := isQueuedUpdateFor_mk.mp hnew
      subst ha
      have htr : truthyId data.id = true := by simp [truthyId, hd, hid]
      rw [if_pos ⟨rfl, htr⟩]
      have hgd : data.id.getD "" = id := by rw [hd]; rfl
      rw [hgd, filter_removeFirst_of_le_one (hp t id hid)]
      rw [List.filter_cons_of_pos hnew]
      simp
    · have hf : (List.filter (isQueuedUpdateFor id) [⟨action, data, now⟩]).length = 0 := by
        rw [List.filter_cons_of_neg hnew]
        rfl
      rw [hf]
      split
    -- with or without de-duplication, the untouched part keeps the bound
      · have hsub := (removeFirstQueuedUpdate_sublist (data.id.getD "") (p t)).filter
          (isQueuedUpdateFor id)
        have := hsub.length_le
        have hb := hp t id hid
        omega
      · have hb := hp t id hid
        omega
  · rw [if_neg ht]
    exact hp t id hid

theorem atMostOneUpdate_applyEnqueues (reqs : List EnqueueReq) :
    atMostOneUpdate (applyEnqueues reqs) := by
  rw [applyEnqueues]
  generalize hacc : (fun _ => [] : String → List SyncOp) = p
  have hp : atMostOneUpdate p := hacc ▸ atMostOneUpdate_empty
  clear hacc
  induction reqs generalizing p with
  | nil => exact hp
  | cons q rest ih =>
    rw [List.foldl_cons]
    exact ih _ (atMostOneUpdate_queue hp q.action q.type q.data q.now)

theorem queue_update_latest (p : String → List SyncOp) (type id : String) (data : Record)
    (now : Int) (hid : id ≠ "") (hd : data.id = some id)
    (hone : ((p type).filter (isQueuedUpdateFor id)).length ≤ 1) :
    ((queueSyncOperation SyncAction.update type data now p) type).filter
      (isQueuedUpdateFor id) = [⟨SyncAction.update, data, now⟩] := by
  have htr : truthyId data.id = true := by simp [truthyId, hd, hid]
  have hgd : data.id.getD "" = id := by rw [hd]; rfl
  simp only [queueSyncOperation, htr, hgd, and_true, true_and, and_self, if_true]
  rw [List.filter_append, filter_removeFirst_of_le_one hone]
  rw [List.filter_cons_of_pos (isQueuedUpdateFor_mk.mpr ⟨rfl, hd⟩)]
  rfl

/-- **C4**: starting from the empty queue, any sequence of enqueues leaves at
most one queued UPDATE per (collection, identity); and enqueueing
UPDATE(id, fieldsA) then UPDATE(id, fieldsB) leaves exactly one queued
UPDATE for that identity, carrying fieldsB (the newer operation). -/
theorem queueSyncOperation_collapses_updates (reqs : List EnqueueReq)
    (type id : String) (hid : id ≠ "") :
    (((applyEnqueues reqs) type).filter (isQueuedUpdateFor id)).length ≤ 1 ∧
    (∀ (dataA dataB : Record) (nowA nowB : Int),
      dataA.id = some id → dataB.id = some id →
      ((queueSyncOperation SyncAction.update type dataB nowB
        (queueSyncOperation SyncAction.update type dataA nowA
          (applyEnqueues reqs))) type).filter (isQueuedUpdateFor id) =
        [⟨SyncAction.update, dataB, nowB⟩]) := by
  refine ⟨atMostOneUpdate_applyEnqueues reqs type id hid, ?_⟩
  intro dataA dataB nowA nowB hA hB
  have h1 := queue_update_latest (applyEnqueues reqs) type id dataA nowA hid hA
    (atMostOneUpdate_applyEnqueues reqs type id hid)
  have h2 : (((queueSyncOperation SyncAction.update type dataA nowA
      (applyEnqueues reqs)) type).filter (isQueuedUpdateFor id)).length ≤ 1 := by
    rw [h1]
    exact Nat.le_refl 1
  exact queue_update_latest _ type id dataB nowB hid hB h2

/-- Concrete instantiation of `queueSyncOperation_collapses_updates`: an
`add` already queued for `Photo`, then two updates for identity `x`. -/
theorem queueSyncOperation_collapses_updates_witness :
    ("x" ≠ "") ∧
    ((((applyEnqueues [⟨SyncAction.add, "Photo", { id := some "q" }, 0⟩]) "Photo").filter
        (isQueuedUpdateFor "x")).length ≤ 1 ∧
      (∀ (dataA dataB : Record) (nowA nowB : Int),
        dataA.id = some "x" → dataB.id = some "x" →
        ((queueSyncOperation SyncAction.update "Photo" dataB nowB
          (queueSyncOperation SyncAction.update "Photo" dataA nowA
            (applyEnqueues [⟨SyncAction.add, "Photo", { id := some "q" }, 0⟩]))) "Photo").filter
          (isQueuedUpdateFor "x") = [⟨SyncAction.update, dataB, nowB⟩])) :=
  ⟨by decide,
    queueSyncOperation_collapses_updates [⟨SyncAction.add, "Photo", { id := some "q" }, 0⟩]
      "Photo" "x" (by decide)⟩

/-- **C5**: `syncAllData` invoked while a sync is already in flight returns
`false` and returns the state unchanged — in particular the pending queue
and the in-memory snapshot are untouched. -/
theorem syncAllData_noop_when_syncing (env : String → List Record) (st : SyncState)
    (h : st.syncing = true) : syncAllData env st = (false, st) := by
  rw [syncAllData, if_pos h]

/-- Concrete instantiation of `syncAllData_noop_when_syncing` on a state
with a non-empty queue and snapshot. -/
theorem syncAllData_noop_when_syncing_witness :
    (SyncState.mk true true (fun _ => [{ id := some "a" }]) (fun _ => [])
      (fun _ => [⟨SyncAction.add, { id := some "a" }, 0⟩])).syncing = true ∧
    syncAllData (fun _ => [])
      (SyncState.mk true true (fun _ => [{ id := some "a" }]) (fun _ => [])
        (fun _ => [⟨SyncAction.add, { id := some "a" }, 0⟩])) =
      (false, SyncState.mk true true (fun _ => [{ id := some "a" }]) (fun _ => [])
        (fun _ => [⟨SyncAction.add, { id := some "a" }, 0⟩])) :=
  ⟨rfl, syncAllData_noop_when_syncing _ _ rfl⟩

/-! ### Claim C6 -/

/-- **C6**: for every collection of the fixed set and every field map,
`addItem` succeeds locally: it returns a record whose identity is
`temp_` followed by an 18-character suffix of hexadecimal digits drawn
from `hexChars`, marks it locally unsynced (`isLocal = true`), and inserts
it at the head of the collection's in-memory snapshot (and its Local Store
mirror). -/
theorem addItem_always_succeeds (type : String) (data : Record) (rnd : Nat → Fin 16)
    (now : Int) (st : SyncState) (h : type ∈ dataTypes) :
    ∃ newItem : Record,
      (addItem type data rnd now st).1 = some newItem ∧
      (∃ suffix : String, newItem.id = some ("temp_" ++ suffix) ∧
        suffix.length = 18 ∧ ∀ c ∈ suffix.toList, c ∈ hexChars) ∧
      newItem.isLocal = true ∧
      (addItem type data rnd now st).2.localData type = newItem :: st.localData type ∧
      (addItem type data rnd now st).2.localStore type = newItem :: st.localData type := by
  rw [addItem]
  rw [if_pos h]
  refine ⟨_, rfl, ?_, rfl, ?_, ?_⟩
  · refine ⟨String.mk ((List.range 18).map (fun i => hexDigit (rnd i))), ?_, ?_, ?_⟩
    · rfl
    · show (String.mk ((List.range 18).map (fun i => hexDigit (rnd i)))).data.length = 18
      simp
    · intro c hc
      have hc' : c ∈ (List.range 18).map (fun i => hexDigit (rnd i)) := hc
      obtain ⟨i, _, hi⟩ := List.mem_map.mp hc'
      rw [← hi]
      exact List.get_mem hexChars _ _
  · cases hst : st.isInitialized <;> simp [hst]
  · cases hst : st.isInitialized <;> simp [hst]

/-- Concrete instantiation of `addItem_always_succeeds` on the `Message`
collection with a constant randomness oracle. -/
theorem addItem_always_succeeds_witness :
    ("Message" ∈ dataTypes) ∧
    (∃ newItem : Record,
      (addItem "Message" { payload := 9 } (fun _ => (0 : Fin 16)) 42
        (SyncState.mk false true (fun _ => []) (fun _ => []) (fun _ => []))).1 = some newItem ∧
      (∃ suffix : String, newItem.id = some ("temp_" ++ suffix) ∧
        suffix.length = 18 ∧ ∀ c ∈ suffix.toList, c ∈ hexChars) ∧
      newItem.isLocal = true ∧
      (addItem "Message" { payload := 9 } (fun _ => (0 : Fin 16)) 42
        (SyncState.mk false true (fun _ => []) (fun _ => []) (fun _ => []))).2.localData
          "Message" =
        newItem :: (SyncState.mk false true (fun _ => []) (fun _ => [])
          (fun _ => [])).localData "Message" ∧
      (addItem "Message" { payload := 9 } (fun _ => (0 : Fin 16)) 42
        (SyncState.mk false true (fun _ => []) (fun _ => []) (fun _ => []))).2.localStore
          "Message" =
        newItem :: (SyncState.mk false true (fun _ => []) (fun _ => [])
          (fun _ => [])).localData "Message") :=
  ⟨by decide,
    addItem_always_succeeds "Message" { payload := 9 } (fun _ => (0 : Fin 16)) 42
      (SyncState.mk false true (fun _ => []) (fun _ => []) (fun _ => [])) (by decide)⟩

/-! ### Claim C7 -/

theorem mem_queue_delete {p : String → List SyncOp} {type : String} {data : Record}
    {now : Int} {t : String} {op : SyncOp} (h : op ∈ p t) :
    op ∈ (queueSyncOperation SyncAction.delete type data now p) t := by
  simp only [queueSyncOperation]
  by_cases ht : t = type
  · rw [if_pos ht]
    rw [if_neg (by simp : ¬(SyncAction.delete = SyncAction.update ∧ truthyId data.id = true))]
    exact List.mem_append_left _ (ht ▸ h)
  · rw [if_neg ht]
    exact h

/-- A never-synced record (`isLocal = true`) with a queued CREATE. -/
def recTempC7 : Record := { id := some "temp_aaaaaaaaaaaaaaaaaa", isLocal := true, payload := 1 }

/-- A synced record (`isLocal = false`). -/
def recSyncedC7 : Record := { id := some "aaaaaaaaaaaaaaaaaaaaaaaa", isLocal := false, payload := 2 }

/-- State holding the unsynced record and its queued CREATE operation. -/
def stUnsyncedC7 : SyncState :=
  SyncState.mk false true
    (fun t => if t = "Photo" then [recTempC7] else [])
    (fun _ => [])
    (fun t => if t = "Photo" then [⟨SyncAction.add, recTempC7, 0⟩] else [])

/-- State holding only the synced record, with an empty queue. -/
def stSyncedC7 : SyncState :=
  SyncState.mk false true
    (fun t => if t = "Photo" then [recSyncedC7] else [])
    (fun _ => [])
    (fun _ => [])

/-- **C7, counterexample** (against `LoveSiteDataSync.deleteItem` in
leancloud-proxy.js, the claim's first cited source): deleting the
never-synced record does *not* cancel its queued CREATE (the operation is
still queued afterwards), and deleting a synced record removes it from the
snapshot immediately instead of keeping it marked until the queued DELETE
confirms. -/
theorem deleteItem_counterexample :
    ((deleteItem "Photo" "temp_aaaaaaaaaaaaaaaaaa" 5 stUnsyncedC7).2.pendingSyncs "Photo" =
      [⟨SyncAction.add, recTempC7, 0⟩]) ∧
    ((deleteItem "Photo" "aaaaaaaaaaaaaaaaaaaaaaaa" 5 stSyncedC7).1 = true ∧
      (deleteItem "Photo" "aaaaaaaaaaaaaaaaaaaaaaaa" 5 stSyncedC7).2.localData "Photo" = []) := by
  refine ⟨?_, ?_, ?_⟩ <;> decide

/-- **C7, amended**: in `LoveSiteDataSync` (leancloud-proxy.js), `deleteItem`
on any present record returns `true`, removes the record from the snapshot
outright regardless of its origin, and never removes a queued operation
(in particular a queued CREATE for a never-synced record stays queued; at
most a DELETE is additionally enqueued).  In the `SimpleDataSync` variant
(part_000), `deleteItem` removes a `temp_`-identity record outright, and
any other record is kept in the snapshot (same length), marked
`isDeleted`, until a later sync confirms the remote delete. -/
theorem deleteItem_amended :
    (∀ (st : SyncState) (type id : String) (now : Int) (item : Record),
      type ∈ dataTypes →
      (st.localData type).find? (fun it => it.id == some id) = some item →
      (deleteItem type id now st).1 = true ∧
      (deleteItem type id now st).2.localData type =
        (st.localData type).filter (fun it => !(it.id == some id)) ∧
      (∀ (t : String) (op : SyncOp), op ∈ st.pendingSyncs t →
        op ∈ (deleteItem type id now st).2.pendingSyncs t)) ∧
    (∀ (st : SimpleState) (type id : String) (i : Nat),
      st.isReady = true →
      (st.data type).findIdx? (fun it => it.id == some id) = some i →
      ((((st.data type).getD i ({ id := none })).id.getD "").startsWith "temp_" = true →
        (deleteItemSimple type id st).1 = true ∧
        (deleteItemSimple type id st).2.data type = (st.data type).eraseIdx i) ∧
      ((((st.data type).getD i ({ id := none })).id.getD "").startsWith "temp_" = false →
        (deleteItemSimple type id st).1 = true ∧
        (deleteItemSimple type id st).2.data type =
          (st.data type).set i
            { (st.data type).getD i ({ id := none }) with
              isLocal := true, isDeleted := true, isModified := false, isNew := false } ∧
        ((deleteItemSimple type id st).2.data type).length = (st.data type).length)) := by
  constructor
  · intro st type id now item htype hfind
    refine ⟨?_, ?_, ?_⟩
    · rw [deleteItem, if_pos htype, hfind]
    · rw [deleteItem, if_pos htype, hfind]
      dsimp only
      split <;> simp
    · intro t op hop
      rw [deleteItem, if_pos htype, hfind]
      dsimp only
      split
      · exact mem_queue_delete hop
      · exact hop
  · intro st type id i hready hidx
    have hnotfalse : ¬st.isReady = false := by simp [hready]
    constructor
    · intro hsw
      rw [deleteItemSimple, if_neg hnotfalse, hidx]
      dsimp only
      rw [if_pos hsw]
      exact ⟨rfl, by simp⟩
    · intro hsw
      rw [deleteItemSimple, if_neg hnotfalse, hidx]
      dsimp only
      rw [if_neg (by rw [hsw]; exact Bool.false_ne_true)]
      refine ⟨rfl, by simp, ?_⟩
      simp

/-- Concrete instantiation of `deleteItem_amended`: deleting the synced
record in `stSyncedC7` (primary implementation) and deleting a marked
record in a one-record `SimpleDataSync` state. -/
theorem deleteItem_amended_witness :
    ("Photo" ∈ dataTypes) ∧
    ((stSyncedC7.localData "Photo").find?
      (fun it => it.id == some "aaaaaaaaaaaaaaaaaaaaaaaa") = some recSyncedC7) ∧
    ((deleteItem "Photo" "aaaaaaaaaaaaaaaaaaaaaaaa" 5 stSyncedC7).1 = true ∧
      (deleteItem "Photo" "aaaaaaaaaaaaaaaaaaaaaaaa" 5 stSyncedC7).2.localData "Photo" =
        (stSyncedC7.localData "Photo").filter
          (fun it => !(it.id == some "aaaaaaaaaaaaaaaaaaaaaaaa")) ∧
      (∀ (t : String) (op : SyncOp), op ∈ stSyncedC7.pendingSyncs t →
        op ∈ (deleteItem "Photo" "aaaaaaaaaaaaaaaaaaaaaaaa" 5 stSyncedC7).2.pendingSyncs t)) ∧
    ((SimpleState.mk true (fun t => if t = "Photo" then [recSyncedC7] else [])).isReady = true) ∧
    (((SimpleState.mk true (fun t => if t = "Photo" then [recSyncedC7] else [])).data
        "Photo").findIdx? (fun it => it.id == some "aaaaaaaaaaaaaaaaaaaaaaaa") = some 0) ∧
    (((((SimpleState.mk true (fun t => if t = "Photo" then [recSyncedC7] else [])).data
          "Photo").getD 0 ({ id := none })).id.getD "").startsWith "temp_" = false →
      (deleteItemSimple "Photo" "aaaaaaaaaaaaaaaaaaaaaaaa"
        (SimpleState.mk true (fun t => if t = "Photo" then [recSyncedC7] else []))).1 = true ∧
      (deleteItemSimple "Photo" "aaaaaaaaaaaaaaaaaaaaaaaa"
        (SimpleState.mk true (fun t => if t = "Photo" then [recSyncedC7] else []))).2.data
          "Photo" =
        (((SimpleState.mk true (fun t => if t = "Photo" then [recSyncedC7] else [])).data
          "Photo").set 0
          { (((SimpleState.mk true (fun t => if t = "Photo" then [recSyncedC7] else [])).data
              "Photo").getD 0 ({ id := none })) with
            isLocal := true, isDeleted := true, isModified := false, isNew := false }) ∧
      ((deleteItemSimple "Photo" "aaaaaaaaaaaaaaaaaaaaaaaa"
        (SimpleState.mk true (fun t => if t = "Photo" then [recSyncedC7] else []))).2.data
          "Photo").length =
        ((SimpleState.mk true (fun t => if t = "Photo" then [recSyncedC7] else [])).data
          "Photo").length) :=
  ⟨by decide, by decide,
    deleteItem_amended.1 stSyncedC7 "Photo" "aaaaaaaaaaaaaaaaaaaaaaaa" 5 recSyncedC7
      (by decide) (by decide),
    rfl, by decide,
    (deleteItem_amended.2 (SimpleState.mk true (fun t => if t = "Photo" then [recSyncedC7] else []))
      "Photo" "aaaaaaaaaaaaaaaaaaaaaaaa" 0 rfl (by decide)).2⟩

/-! ### Claim C8 -/

theorem processOp_none_iff {env : SyncOp → AttemptOutcome} {type : String} {op : SyncOp}
    {st : SyncState} :
    processOp env type op st = none ↔ opThrows env op = true := by
  cases ha : op.action <;>
    cases hv : isValidObjectId (op.data.id.getD "") <;>
      cases he : env op <;>
        simp [processOp, opThrows, ha, hv, he]

theorem processOp_exn_cases {env : SyncOp → AttemptOutcome} {type : String} {op : SyncOp}
    {st : SyncState} (h : env op = AttemptOutcome.exn) :
    processOp env type op st = none ∨ processOp env type op st = some st := by
  cases ha : op.action <;>
    cases hv : isValidObjectId (op.data.id.getD "") <;>
      simp [processOp, ha, hv, h]

theorem applyRemoteItem_pendingSyncs (type : String) (data : Record)
    (remoteItem : Option Record) (st : SyncState) :
    (applyRemoteItem type data remoteItem st).pendingSyncs = st.pendingSyncs := by
  rw [applyRemoteItem.eq_def]
  split
  · rfl
  · split <;> rfl

theorem processOp_pendingSyncs {env : SyncOp → AttemptOutcome} {type : String}
    {op : SyncOp} {st st1 : SyncState} (h : processOp env type op st = some st1) :
    st1.pendingSyncs = st.pendingSyncs := by
  cases ha : op.action <;>
    cases hv : isValidObjectId (op.data.id.getD "") <;>
      cases he : env op <;>
        simp only [processOp, ha, hv, he, Bool.false_eq_true, if_false, if_true,
          Option.some.injEq, reduceCtorEq] at h <;>
        (try subst h) <;>
        first
        | rfl
        | exact applyRemoteItem_pendingSyncs type op.data _ st

theorem processOpsLoop_state_const {env : SyncOp → AttemptOutcome} {type : String}
    {now : Int} (hall : ∀ o : SyncOp, env o = AttemptOutcome.exn) :
    ∀ (ops : List SyncOp) (st : SyncState),
      (processOpsLoop env type now ops st).2 = st := by
  intro ops
  induction ops with
  | nil => intro st; rfl
  | cons op rest ih =>
    intro st
    rw [processOpsLoop]
    rcases @processOp_exn_cases env type op st (hall op) with h | h
    · rw [h]
      dsimp only
      split
      · exact ih st
      · exact ih st
    · rw [h]
      dsimp only
      exact ih st

theorem processOpsLoop_pendingSyncs {env : SyncOp → AttemptOutcome} {type : String}
    {now : Int} :
    ∀ (ops : List SyncOp) (st : SyncState),
      (processOpsLoop env type now ops st).2.pendingSyncs = st.pendingSyncs := by
  intro ops
  induction ops with
  | nil => intro st; rfl
  | cons op rest ih =>
    intro st
    rw [processOpsLoop]
    cases hp : processOp env type op st with
    | some st1 =>
      dsimp only
      exact (ih st1).trans (processOp_pendingSyncs hp)
    | none =>
      dsimp only
      split
      · exact ih st
      · exact ih st

theorem processOpsLoop_survivors {env : SyncOp → AttemptOutcome} {type : String}
    {now : Int} :
    ∀ (ops : List SyncOp) (st : SyncState) (o : SyncOp),
      o ∈ (processOpsLoop env type now ops st).1 →
      o ∈ ops ∧ opThrows env o = true ∧ ¬(now - o.timestamp > staleMs) := by
  intro ops
  induction ops with
  | nil => intro st o ho; cases ho
  | cons op rest ih =>
    intro st o ho
    rw [processOpsLoop] at ho
    cases hp : processOp env type op st with
    | some st1 =>
      rw [hp] at ho
      dsimp only at ho
      obtain ⟨h1, h2, h3⟩ := ih st1 o ho
      exact ⟨List.mem_cons_of_mem _ h1, h2, h3⟩
    | none =>
      rw [hp] at ho
      dsimp only at ho
      split at ho
      · obtain ⟨h1, h2, h3⟩ := ih st o ho
        exact ⟨List.mem_cons_of_mem _ h1, h2, h3⟩
      · rcases List.mem_cons.mp ho with h | h
        · subst h
          exact ⟨List.mem_cons_self _ _, processOp_none_iff.mp hp, by assumption⟩
        · obtain ⟨h1, h2, h3⟩ := ih st o h
          exact ⟨List.mem_cons_of_mem _ h1, h2, h3⟩

/-- One iteration of the per-collection drain fold. -/
def drainStep (env : SyncOp → AttemptOutcome) (now : Int) (s : SyncState) (t : String) :
    SyncState :=
  let res := processOpsLoop env t now (s.pendingSyncs t) s
  { res.2 with pendingSyncs := fun u => if u = t then res.1 else res.2.pendingSyncs u }

theorem processPendingSyncs_eq_fold {env : SyncOp → AttemptOutcome} {now : Int}
    {st : SyncState} (hsync : st.syncing = false) (hinit : st.isInitialized = true) :
    processPendingSyncs env now st =
      { (dataTypes.foldl (drainStep env now) { st with syncing := true }) with
        syncing := false } := by
  rw [processPendingSyncs, if_neg (by simp [hsync, hinit])]
  rfl

theorem drainStep_localData {env : SyncOp → AttemptOutcome} {now : Int}
    (hall : ∀ o : SyncOp, env o = AttemptOutcome.exn) (s : SyncState) (t : String) :
    (drainStep env now s t).localData = s.localData ∧
    (drainStep env now s t).localStore = s.localStore := by
  rw [drainStep]
  rw [processOpsLoop_state_const hall]
  exact ⟨rfl, rfl⟩

theorem foldl_drainStep_localData {env : SyncOp → AttemptOutcome} {now : Int}
    (hall : ∀ o : SyncOp, env o = AttemptOutcome.exn) :
    ∀ (ts : List String) (s : SyncState),
      (ts.foldl (drainStep env now) s).localData = s.localData ∧
      (ts.foldl (drainStep env now) s).localStore = s.localStore := by
  intro ts
  induction ts with
  | nil => intro s; exact ⟨rfl, rfl⟩
  | cons t rest ih =>
    intro s
    rw [List.foldl_cons]
    obtain ⟨h1, h2⟩ := ih (drainStep env now s t)
    obtain ⟨h3, h4⟩ := drainStep_localData hall s t
    exact ⟨h1.trans h3, h2.trans h4⟩

theorem drainStep_out {env : SyncOp → AttemptOutcome} {now : Int} {op : SyncOp}
    {type : String} (hstale : now - op.timestamp > staleMs) (s : SyncState) :
    op ∉ (drainStep env now s type).pendingSyncs type := by
  rw [drainStep]
  intro hmem
  simp only [if_pos rfl] at hmem
  exact absurd hstale (processOpsLoop_survivors _ _ _ hmem).2.2

theorem drainStep_keeps_out {env : SyncOp → AttemptOutcome} {now : Int} {op : SyncOp}
    {type : String} {s : SyncState} (hout : op ∉ s.pendingSyncs type) (t : String) :
    op ∉ (drainStep env now s t).pendingSyncs type := by
  rw [drainStep]
  intro hmem
  by_cases ht : type = t
  · subst ht
    simp only [if_pos rfl] at hmem
    exact hout (processOpsLoop_survivors _ _ _ hmem).1
  · simp only [if_neg ht] at hmem
    rw [processOpsLoop_pendingSyncs] at hmem
    exact hout hmem

theorem foldl_drainStep_keeps_out {env : SyncOp → AttemptOutcome} {now : Int}
    {op : SyncOp} {type : String} :
    ∀ (ts : List String) (s : SyncState), op ∉ s.pendingSyncs type →
      op ∉ (ts.foldl (drainStep env now) s).pendingSyncs type := by
  intro ts
  induction ts with
  | nil => intro s h; exact h
  | cons u rest ih =>
    intro s h
    rw [List.foldl_cons]
    exact ih _ (drainStep_keeps_out h u)

theorem foldl_drainStep_out {env : SyncOp → AttemptOutcome} {now : Int} {op : SyncOp}
    {type : String} (hstale : now - op.timestamp > staleMs) :
    ∀ (ts : List String) (s : SyncState), type ∈ ts →
      op ∉ (ts.foldl (drainStep env now) s).pendingSyncs type := by
  intro ts
  induction ts with
  | nil => intro s h; cases h
  | cons t rest ih =>
    intro s hmem
    rw [List.foldl_cons]
    rcases List.mem_cons.mp hmem with h | h
    · subst h
      exact foldl_drainStep_keeps_out rest _ (drainStep_out hstale s)
    · exact ih _ h

/-- **C8**: in an environment where every remote attempt throws, a queued
operation whose attempt fails and which is older than the 24-hour
staleness threshold is dropped from the queue by the drain (after that one
further failed attempt), while the in-memory snapshot and the Local Store
are left entirely unchanged — the associated record is not deleted
(bounded retry, not silent data loss). -/
theorem processPendingSyncs_drops_stale (env : SyncOp → AttemptOutcome) (now : Int)
    (st : SyncState) (type : String) (op : SyncOp)
    (hsync : st.syncing = false) (hinit : st.isInitialized = true)
    (htype : type ∈ dataTypes) (hqueued : op ∈ st.pendingSyncs type)
    (hfail : opThrows env op = true) (hstale : now - op.timestamp > staleMs)
    (hall : ∀ o : SyncOp, env o = AttemptOutcome.exn) :
    op ∉ (processPendingSyncs env now st).pendingSyncs type ∧
    (processPendingSyncs env now st).localData = st.localData ∧
    (processPendingSyncs env now st).localStore = st.localStore := by
  rw [processPendingSyncs_eq_fold hsync hinit]
  refine ⟨?_, ?_, ?_⟩
  · exact foldl_drainStep_out hstale dataTypes _ htype
  · exact (foldl_drainStep_localData hall dataTypes _).1
  · exact (foldl_drainStep_localData hall dataTypes _).2

/-- Concrete instantiation of `processPendingSyncs_drops_stale`: one stale
queued UPDATE on a valid remote id, everything failing. -/
theorem processPendingSyncs_drops_stale_witness :
    (SyncState.mk false true (fun _ => [{ id := some "aaaaaaaaaaaaaaaaaaaaaaaa" }])
      (fun _ => [{ id := some "aaaaaaaaaaaaaaaaaaaaaaaa" }])
      (fun t => if t = "Photo"
        then [⟨SyncAction.update, { id := some "aaaaaaaaaaaaaaaaaaaaaaaa" }, 0⟩]
        else [])).syncing = false ∧
    ("Photo" ∈ dataTypes) ∧
    ((⟨SyncAction.update, { id := some "aaaaaaaaaaaaaaaaaaaaaaaa" }, 0⟩ : SyncOp) ∈
      (SyncState.mk false true (fun _ => [{ id := some "aaaaaaaaaaaaaaaaaaaaaaaa" }])
        (fun _ => [{ id := some "aaaaaaaaaaaaaaaaaaaaaaaa" }])
        (fun t => if t = "Photo"
          then [⟨SyncAction.update, { id := some "aaaaaaaaaaaaaaaaaaaaaaaa" }, 0⟩]
          else [])).pendingSyncs "Photo") ∧
    (opThrows (fun _ => AttemptOutcome.exn)
      ⟨SyncAction.update, { id := some "aaaaaaaaaaaaaaaaaaaaaaaa" }, 0⟩ = true) ∧
    ((100000000 : Int) - (0 : Int) > staleMs) ∧
    ((⟨SyncAction.update, { id := some "aaaaaaaaaaaaaaaaaaaaaaaa" }, 0⟩ : SyncOp) ∉
      (processPendingSyncs (fun _ => AttemptOutcome.exn) 100000000
        (SyncState.mk false true (fun _ => [{ id := some "aaaaaaaaaaaaaaaaaaaaaaaa" }])
          (fun _ => [{ id := some "aaaaaaaaaaaaaaaaaaaaaaaa" }])
          (fun t => if t = "Photo"
            then [⟨SyncAction.update, { id := some "aaaaaaaaaaaaaaaaaaaaaaaa" }, 0⟩]
            else []))).pendingSyncs "Photo" ∧
      (processPendingSyncs (fun _ => AttemptOutcome.exn) 100000000
        (SyncState.mk false true (fun _ => [{ id := some "aaaaaaaaaaaaaaaaaaaaaaaa" }])
          (fun _ => [{ id := some "aaaaaaaaaaaaaaaaaaaaaaaa" }])
          (fun t => if t = "Photo"
            then [⟨SyncAction.update, { id := some "aaaaaaaaaaaaaaaaaaaaaaaa" }, 0⟩]
            else []))).localData =
        (SyncState.mk false true (fun _ => [{ id := some "aaaaaaaaaaaaaaaaaaaaaaaa" }])
          (fun _ => [{ id := some "aaaaaaaaaaaaaaaaaaaaaaaa" }])
          (fun t => if t = "Photo"
            then [⟨SyncAction.update, { id := some "aaaaaaaaaaaaaaaaaaaaaaaa" }, 0⟩]
            else [])).localData ∧
      (processPendingSyncs (fun _ => AttemptOutcome.exn) 100000000
        (SyncState.mk false true (fun _ => [{ id := some "aaaaaaaaaaaaaaaaaaaaaaaa" }])
          (fun _ => [{ id := some "aaaaaaaaaaaaaaaaaaaaaaaa" }])
          (fun t => if t = "Photo"
            then [⟨SyncAction.update, { id := some "aaaaaaaaaaaaaaaaaaaaaaaa" }, 0⟩]
            else []))).localStore =
        (SyncState.mk false true (fun _ => [{ id := some "aaaaaaaaaaaaaaaaaaaaaaaa" }])
          (fun _ => [{ id := some "aaaaaaaaaaaaaaaaaaaaaaaa" }])
          (fun t => if t = "Photo"
            then [⟨SyncAction.update, { id := some "aaaaaaaaaaaaaaaaaaaaaaaa" }, 0⟩]
            else [])).localStore) :=
  ⟨rfl, by decide, by decide, by decide, by decide,
    processPendingSyncs_drops_stale (fun _ => AttemptOutcome.exn) 100000000
      (SyncState.mk false true (fun _ => [{ id := some "aaaaaaaaaaaaaaaaaaaaaaaa" }])
        (fun _ => [{ id := some "aaaaaaaaaaaaaaaaaaaaaaaa" }])
        (fun t => if t = "Photo"
          then [⟨SyncAction.update, { id := some "aaaaaaaaaaaaaaaaaaaaaaaa" }, 0⟩]
          else []))
      "Photo" ⟨SyncAction.update, { id := some "aaaaaaaaaaaaaaaaaaaaaaaa" }, 0⟩
      rfl rfl (by decide) (by decide) (by decide) (by decide)
      (fun _ => rfl)⟩

/-! ### Claim C9 -/

/-- **C9, counterexample** (against `LoveSiteDataSync.notifyDataUpdated` in
leancloud-proxy.js, the claim's first cited source): with two registered
callbacks of which the first throws, only the first is invoked — delivery
to the second is prevented — and the exception propagates to the caller,
so the notifier does not isolate callback exceptions. -/
theorem notifyDataUpdated_counterexample :
    notifyDataUpdated (fun c => c == 0) [0, 1] = ([0], true) ∧
    (1 : Nat) ∉ (notifyDataUpdated (fun c => c == 0) [0, 1]).1 ∧
    (notifyDataUpdated (fun c => c == 0) [0, 1]).2 = true := by
  refine ⟨?_, ?_, ?_⟩ <;> decide

/-- **C9, amended**: the `SimpleDataSync` notifier (part_000) invokes every
registered callback synchronously in registration order and isolates
exceptions (all callbacks are invoked, nothing propagates); the
`LoveSiteDataSync` notifier (leancloud-proxy.js) invokes callbacks in
registration order, but stops at the first throwing callback, whose
exception propagates to the caller, skipping the remaining callbacks.
When no callback throws, both deliver to every callback in order without
propagating. -/
theorem notifyDataUpdated_amended :
    (∀ (thr : Nat → Bool) (cbs : List Nat),
      notifyDataUpdatedSimple thr cbs = (cbs, false)) ∧
    (∀ (thr : Nat → Bool) (cbs : List Nat),
      notifyDataUpdated thr cbs =
        match cbs.dropWhile (fun c => !thr c) with
        | [] => (cbs, false)
        | t :: _ => (cbs.takeWhile (fun c => !thr c) ++ [t], true)) := by
  constructor
  · intro thr cbs
    induction cbs with
    | nil => rfl
    | cons cb rest ih =>
      rw [notifyDataUpdatedSimple, ih]
  · intro thr cbs
    induction cbs with
    | nil => rfl
    | cons cb rest ih =>
      rw [notifyDataUpdated]
      by_cases hcb : thr cb = true
      · rw [if_pos hcb, List.dropWhile_cons]
        rw [List.takeWhile_cons]
        simp [hcb]
      · have hcb' : thr cb = false := by
          cases hb : thr cb
          · rfl
          · exact absurd hb hcb
        rw [if_neg hcb, ih, List.dropWhile_cons, List.takeWhile_cons]
        simp only [hcb', Bool.not_false, if_true]
        cases hdw : rest.dropWhile (fun c => !thr c) with
        | nil => simp
        | cons t ts => simp

end LoveMemories
